import Mathlib

/-!
# Verification of the token-ownership / balance-aggregation pipeline

Shallow embedding of the repository's three modules:

* `src/app.js`   — checkpoint resolution (`findBlockByTimestamp`), the adaptive
  chunked ingestion sweep (`getTransactionThroughBlock`), the ownership-replay
  reducer (`getHolderMapByBlock`), the balance aggregation
  (`getWalletBalance` / `fetchBalanceWithRetry`), and `main`;
* `src/db.js`    — the event store (`getEventsByBlockRange`,
  `GetHighestCachedBlock`);
* `src/ratelimit.js` — the interval-based rate limiter (`add` / `dispatch`).

JavaScript numbers that stay integral in every reachable state are modelled as
`Nat`/`Int`; `Math.floor(c * 0.75)`, `* 1.25`, `* 0.5` on integers ≤ 150000 are
exact in binary floating point, so they are embedded as `3*c/4`, `5*c/4`, `c/2`
with `Nat` division.  Promise rejection is modelled with `Except`, `null` with
`Option`.
-/

/-- A decoded `Transfer` event row, as stored by `db.js` (`transfers` table)
and as reconstructed by `getEventsByBlockRange`. -/
structure TransferEvent where
  blockNumber : Nat
  logIndex : Nat
  transactionHash : String
  fromAddress : String
  toAddress : String
  tokenId : String
deriving DecidableEq, Repr

/-- The zero address literal compared against in `getHolderMapByBlock`
(`src/app.js` line 159). -/
def zeroAddress : String := "0x0000000000000000000000000000000000000000"

/-! ## Adaptive chunk sizing (`src/app.js` lines 69–74, 107–119, 127–131) -/

def MIN_CHUNK_SIZE : Nat := 100
def MAX_CHUNK_SIZE : Nat := 150000
def MAX_LOGS_PER_QUERY : Nat := 9500
def MIN_LOGS_TO_INCREASE_CHUNK : Nat := 1000

/-- The post-fetch chunk-size update of `getTransactionThroughBlock`
(`src/app.js` lines 107–119), with the branches in source order:
first the `n ≥ 9500` shrink, then the `n < 1000 && c < MAX` 1.25× growth,
then the `n === 0 && c < MAX` doubling. -/
def adjustChunkSize (c n : Nat) : Nat :=
  if n ≥ MAX_LOGS_PER_QUERY then
    max MIN_CHUNK_SIZE (3 * c / 4)
  else if n < MIN_LOGS_TO_INCREASE_CHUNK ∧ c < MAX_CHUNK_SIZE then
    min MAX_CHUNK_SIZE (5 * c / 4)
  else if n = 0 ∧ c < MAX_CHUNK_SIZE then
    min MAX_CHUNK_SIZE (c * 2)
  else
    c

/-- The chunk-size update in the `catch` branch when the error message
indicates too many results (`src/app.js` line 129). -/
def halveChunkSize (c : Nat) : Nat :=
  max MIN_CHUNK_SIZE (c / 2)

/-- One chunk-size adjustment event during a sweep: either a successful window
fetch returning `n` events, or a "query returned more than …" error. -/
inductive ChunkAdj where
  | success (n : Nat)
  | errorTooMany
deriving DecidableEq, Repr

/-- Apply one adjustment to the current chunk size. -/
def applyChunkAdj (c : Nat) : ChunkAdj → Nat
  | .success n => adjustChunkSize c n
  | .errorTooMany => halveChunkSize c

/-- The initial chunk size of a sweep (`src/app.js` line 70). -/
def INITIAL_CHUNK_SIZE : Nat := 50000

/-! ## Balance-fetch retry loop (`src/app.js` lines 175–200) -/

/-- `MAX_RETRIES = Infinity` (`src/app.js` line 176): modelled as the absent
bound of an optional retry cap. -/
def MAX_RETRIES : Option Nat := none

/-- The loop guard `attempts < MAX_RETRIES`: any finite attempt count is
below `Infinity`. -/
def retryGuard (attempts : Nat) (cap : Option Nat) : Bool :=
  match cap with
  | none => true
  | some m => attempts < m

/-- Control state of `fetchBalanceWithRetry`: inside the `while` with a given
attempt count, returned from inside the loop with a balance, or at the
post-loop fallback that returns a zero balance. -/
inductive RetryState where
  | inLoop (attempts : Nat)
  | returned (balance : Int)
  | fallback
deriving DecidableEq, Repr

/-- One iteration of the `while (attempts < MAX_RETRIES)` loop of
`fetchBalanceWithRetry`: test the guard; inside the body increment `attempts`
and attempt the fetch (`oracle` gives the outcome of the k-th attempt); a
success returns, a failure waits and loops. -/
def retryStep (oracle : Nat → Option Int) : RetryState → RetryState
  | .inLoop a =>
      if retryGuard a MAX_RETRIES then
        match oracle (a + 1) with
        | some b => .returned b
        | none => .inLoop (a + 1)
      else
        .fallback
  | s => s

/-! ## `GetHighestCachedBlock` (`src/db.js` lines 156–168) -/

/-- `SELECT MAX(blockNumber) FROM transfers`: `none` on an empty table. -/
def maxBlockOf (store : List TransferEvent) : Option Int :=
  store.foldl
    (fun acc e =>
      match acc with
      | none => some (e.blockNumber : Int)
      | some m => some (max m (e.blockNumber : Int)))
    none

/-- JavaScript `v || -1` on a nullable number: `null` and `0` are falsy and
map to `-1`. -/
def jsOrNeg1 (v : Option Int) : Int :=
  match v with
  | none => -1
  | some x => if x = 0 then -1 else x

/-- `GetHighestCachedBlock` (`src/db.js` line 164): `row.maxBlock || -1`. -/
def GetHighestCachedBlock (store : List TransferEvent) : Int :=
  jsOrNeg1 (maxBlockOf store)

/-! ## Balance aggregation (`src/app.js` lines 203–234) -/

/-- `Promise.all` over already-settled per-owner outcomes: the first rejection
rejects the whole aggregation, otherwise all fulfilment values are collected
in order. -/
def promiseAll {ε α : Type} : List (Except ε α) → Except ε (List α)
  | [] => .ok []
  | x :: xs =>
    match x with
    | .error e => .error e
    | .ok a =>
      match promiseAll xs with
      | .error e => .error e
      | .ok as_ => .ok (a :: as_)

/-- The aggregation stage of `getWalletBalance` (`src/app.js` lines 220–234):
`await Promise.all(balances)`, sum with exact integer arithmetic, and the
`catch` that logs and rethrows the same error. -/
def sumBalances {ε : Type} (outcomes : List (Except ε Int)) : Except ε Int :=
  match promiseAll outcomes with
  | .ok bs => .ok (bs.foldl (· + ·) 0)
  | .error e => .error e

/-! ## Event store range query (`src/db.js` lines 124–154) -/

/-- The `ORDER BY blockNumber ASC, logIndex ASC` ordering of
`getEventsByBlockRange`. -/
def evLE (a b : TransferEvent) : Prop :=
  a.blockNumber < b.blockNumber ∨
    (a.blockNumber = b.blockNumber ∧ a.logIndex ≤ b.logIndex)

instance : DecidableRel evLE := fun a b => by
  unfold evLE; infer_instance

instance : IsTotal TransferEvent evLE :=
  ⟨fun a b => by unfold evLE; omega⟩

instance : IsTrans TransferEvent evLE :=
  ⟨fun a b c hab hbc => by unfold evLE at *; omega⟩

/-- `getEventsByBlockRange` (`src/db.js` lines 124–154): select the rows with
`fromBlock ≤ blockNumber ≤ toBlock`, ordered by
`(blockNumber ASC, logIndex ASC)`. -/
def getEventsByBlockRange (store : List TransferEvent) (fromBlock toBlock : Nat) :
    List TransferEvent :=
  List.insertionSort evLE
    (store.filter (fun e => decide (fromBlock ≤ e.blockNumber) && decide (e.blockNumber ≤ toBlock)))

/-! ## JavaScript `Map` semantics used by `getHolderMapByBlock` -/

/-- `Map.prototype.get`: the value of the first (unique) entry with the key. -/
def mapGet (m : List (String × String)) (k : String) : Option String :=
  (m.find? (fun p => p.1 == k)).map Prod.snd

/-- `Map.prototype.set`: update the existing entry in place, else append. -/
def mapSet (m : List (String × String)) (k v : String) : List (String × String) :=
  if m.any (fun p => p.1 == k) then
    m.map (fun p => if p.1 == k then (p.1, v) else p)
  else
    m ++ [(k, v)]

/-- `Map.prototype.delete`: drop the entry with the key. -/
def mapDelete (m : List (String × String)) (k : String) : List (String × String) :=
  m.filter (fun p => p.1 != k)

/-- The per-event reduction rule of `getHolderMapByBlock`
(`src/app.js` lines 152–167): a transfer to the zero address deletes the
token entry, any other transfer sets the holder. -/
def applyTransfer (m : List (String × String)) (e : TransferEvent) :
    List (String × String) :=
  if e.toAddress == zeroAddress then
    mapDelete m e.tokenId
  else
    mapSet m e.tokenId e.toAddress

/-- `getHolderMapByBlock` (`src/app.js` lines 144–170): fold the ordered
cached events of the range into the holder map. -/
def getHolderMapByBlock (store : List TransferEvent) (startB targetB : Nat) :
    List (String × String) :=
  (getEventsByBlockRange store startB targetB).foldl applyTransfer []

/-- The last stored event of the range that concerns a given asset. -/
def lastTokenEvent (X : String) (evs : List TransferEvent) : Option TransferEvent :=
  (evs.filter (fun e => e.tokenId == X)).getLast?

/-- Reference reading of the spec (§4.4): after an in-order replay, an asset
is owned by the `to` of its last event, and has no owner if that last event
is a burn (or if it has no event at all). -/
def ledgerSpecAt (store : List TransferEvent) (fromB toB : Nat) (X : String) :
    Option String :=
  match lastTokenEvent X (getEventsByBlockRange store fromB toB) with
  | none => none
  | some e => if e.toAddress == zeroAddress then none else some e.toAddress

/-! ## Ingestion sweep (`src/app.js` lines 60–142) -/

/-- Outcome of one `contract.queryFilter` call: a successful fetch returning
`n` events, the "query returned more than …" error, or any other error. -/
inductive FetchResult where
  | success (n : Nat)
  | errorTooMany
  | errorOther
deriving DecidableEq, Repr

/-- The `while (currentBlock <= maxBlock)` loop of
`getTransactionThroughBlock` (`src/app.js` lines 86–138), instrumented with
the list of queried windows.  `fuel` bounds the number of iterations (the
loop itself can retry a failing window forever); `none` means the fuel ran
out before the loop exited. -/
def sweepLoop (fetch : Nat → Nat → FetchResult) (hc : Int) (maxB : Nat) :
    Nat → Nat → Nat → List (Nat × Nat) → Option (List (Nat × Nat))
  | 0, _, _, _ => none
  | fuel + 1, cur, chunk, ws =>
    if cur > maxB then
      some ws
    else if hc > (cur : Int) then
      sweepLoop fetch hc maxB fuel hc.toNat chunk ws
    else
      let toB := min (cur + chunk - 1) maxB
      match fetch cur toB with
      | .success n =>
          sweepLoop fetch hc maxB fuel (toB + 1) (adjustChunkSize chunk n) (ws ++ [(cur, toB)])
      | .errorTooMany =>
          sweepLoop fetch hc maxB fuel cur (halveChunkSize chunk) (ws ++ [(cur, toB)])
      | .errorOther =>
          sweepLoop fetch hc maxB fuel cur chunk (ws ++ [(cur, toB)])

/-- `getTransactionThroughBlock` (`src/app.js` lines 60–142), seen as the
sequence of query windows it performs: read the highest cached height, return
immediately when it already reaches `maxB`, otherwise sweep from the genesis
height with the initial chunk size (the source fixes `chunk0 = 50000`;
it is a parameter here so the bound in the end-to-end claim can be stated). -/
def ingestUpTo (fetch : Nat → Nat → FetchResult) (store : List TransferEvent)
    (genesis maxB chunk0 fuel : Nat) : Option (List (Nat × Nat)) :=
  let hc := GetHighestCachedBlock store
  if hc ≥ (maxB : Int) then
    some []
  else
    sweepLoop fetch hc maxB fuel genesis chunk0 []

/-! ## Checkpoint resolution (`src/app.js` lines 23–58) and `main` (237–272) -/

/-- A checkpoint as returned by `provider.getBlock`. -/
structure BlockInfo where
  number : Int
  timestamp : Int
deriving DecidableEq, Repr

/-- The binary-search loop of `findBlockByTimestamp` (`src/app.js`
lines 29–55).  `fuel` bounds the iterations; a missing block (`getBlock`
returns nothing) breaks out with `foundBlock` still null, and a collapsed
interval (`startBlock > endBlock`) ends the loop the same way. -/
def findBlockLoop (getBlock : Int → Option BlockInfo) (target : Int) :
    Nat → Int → Int → Option BlockInfo
  | 0, _, _ => none
  | fuel + 1, s, e =>
    if s ≤ e then
      let mid := (s + e) / 2
      match getBlock mid with
      | none => none
      | some b =>
        if (b.timestamp - target).natAbs ≤ 300 then some b
        else if b.timestamp < target then findBlockLoop getBlock target fuel (mid + 1) e
        else findBlockLoop getBlock target fuel s (mid - 1)
    else
      none

/-- `findBlockByTimestamp` (`src/app.js` lines 23–58): binary search over
`[0, endBlock]`. -/
def findBlockByTimestamp (getBlock : Int → Option BlockInfo) (target : Int)
    (endBlock : Int) (fuel : Nat) : Option BlockInfo :=
  findBlockLoop getBlock target fuel 0 endBlock

/-- JavaScript property access `block.number` on a nullable value: throws a
`TypeError` when `block` is `null`. -/
def jsBlockNumber (b : Option BlockInfo) : Except String Int :=
  match b with
  | some bb => .ok bb.number
  | none => .error "TypeError: Cannot read properties of null (reading number)"

/-- The contract deployment height (`src/app.js` line 18). -/
def deployStartBlock : Nat := 12286690

/-- `main` (`src/app.js` lines 237–272), from checkpoint resolution onward:
when no block is found the `else` branch only logs, and execution falls
through to `getHolderMapByBlock(startBlock, block.number)`, whose argument
evaluation dereferences `null`.  `store` is the cache contents after the
ingestion phase; `balanceOf` gives each owner's settled per-owner outcome. -/
def mainRun (getBlock : Int → Option BlockInfo) (target endBlock : Int)
    (fuel : Nat) (store : List TransferEvent)
    (balanceOf : String → Except String Int) : Except String Int :=
  let block := findBlockByTimestamp getBlock target endBlock fuel
  match jsBlockNumber block with
  | .error e => .error e
  | .ok n =>
    let holderMap := getHolderMapByBlock store deployStartBlock n.toNat
    let owners := (holderMap.map Prod.snd).dedup
    sumBalances (owners.map balanceOf)

/-! ## Rate limiter (`src/ratelimit.js`) -/

/-- An observable event of a `RateLimiter` run: a call to `add` (the task gets
an identity so FIFO order can be stated), the settlement of a previously
dispatched task (the `.finally` callback), or the firing of an armed
`setTimeout`.  Each event carries the `Date.now()` at which it runs. -/
inductive RLEvent where
  | add (t : Nat) (taskId : Nat)
  | taskComplete (t : Nat) (taskId : Nat)
  | timerFire (t : Nat) (timerId : Nat)
deriving DecidableEq, Repr

/-- The full state of a `RateLimiter` plus instrumentation.  The fields
`interval`, `queue`, `lastDispatchTime`, `timeoutId` are the object's own
fields (`src/ratelimit.js` lines 4–7); `pendingTimers` is the set of armed
`setTimeout`s that have not fired yet (with their fire times); `running` holds
dispatched tasks whose promise has not settled; `dispatched` records
`(taskId, startTime)` in dispatch order; `added` records submission order;
`now` is the current clock; `maxPendingCount` tracks the largest number of
simultaneously pending timers seen; `completedWhileTimerPending` records
whether some task ever settled while a timer was pending. -/
structure RLState where
  interval : Nat
  queue : List Nat
  lastDispatchTime : Nat
  timeoutId : Option Nat
  pendingTimers : List (Nat × Nat)
  running : List Nat
  dispatched : List (Nat × Nat)
  added : List Nat
  nextTimerId : Nat
  now : Nat
  maxPendingCount : Nat
  completedWhileTimerPending : Bool
deriving DecidableEq, Repr

/-- The state right after `new RateLimiter(rps)` with
`interval = 1000 / rps` (`src/ratelimit.js` lines 3–8). -/
def RLState.init (interval : Nat) : RLState :=
  { interval := interval
    queue := []
    lastDispatchTime := 0
    timeoutId := none
    pendingTimers := []
    running := []
    dispatched := []
    added := []
    nextTimerId := 0
    now := 0
    maxPendingCount := 0
    completedWhileTimerPending := false }

/-- `dispatch` (`src/ratelimit.js` lines 22–49): return if a timer is already
referenced; otherwise, with a non-empty queue, either start the oldest task
when `now - lastDispatchTime ≥ interval`, or arm a one-shot timer for the
remaining wait. -/
def rlDispatch (t : Nat) (s : RLState) : RLState :=
  if s.timeoutId.isSome then s
  else
    match s.queue with
    | [] => s
    | task :: rest =>
      if s.interval ≤ t - s.lastDispatchTime then
        { s with
            queue := rest
            lastDispatchTime := t
            running := s.running ++ [task]
            dispatched := s.dispatched ++ [(task, t)] }
      else
        { s with
            timeoutId := some s.nextTimerId
            pendingTimers :=
              s.pendingTimers ++ [(s.nextTimerId, t + (s.interval - (t - s.lastDispatchTime)))]
            nextTimerId := s.nextTimerId + 1
            maxPendingCount := max s.maxPendingCount (s.pendingTimers.length + 1) }

/-- One event of a rate-limiter run.  `add` pushes the task and calls
`dispatch` (lines 15–20); a task settlement runs the `.finally` callback,
which unconditionally clears `timeoutId` and calls `dispatch` (lines 37–40);
a timer firing runs the `setTimeout` callback, which clears `timeoutId` and
calls `dispatch` (lines 44–47).  `none` marks an event that cannot occur:
time running backwards, a reused task id, settling a task that is not
running, or firing a timer that is not pending or whose fire time has not
been reached. -/
def rlStep (s : RLState) (ev : RLEvent) : Option RLState :=
  match ev with
  | .add t id =>
      if s.now ≤ t ∧ id ∉ s.added then
        some (rlDispatch t { s with now := t, queue := s.queue ++ [id], added := s.added ++ [id] })
      else
        none
  | .taskComplete t id =>
      if s.now ≤ t ∧ id ∈ s.running then
        some (rlDispatch t
          { s with
              now := t
              running := s.running.erase id
              timeoutId := none
              completedWhileTimerPending :=
                s.completedWhileTimerPending || !s.pendingTimers.isEmpty })
      else
        none
  | .timerFire t tid =>
      match s.pendingTimers.find? (fun p => p.1 == tid) with
      | some pr =>
        if s.now ≤ t ∧ pr.2 ≤ t then
          some (rlDispatch t
            { s with
                now := t
                pendingTimers := s.pendingTimers.filter (fun p => p.1 != tid)
                timeoutId := none })
        else
          none
      | none => none

/-- Run a rate-limiter trace from the initial state; `none` when some event
in the trace cannot occur. -/
def runRL (interval : Nat) (events : List RLEvent) : Option RLState :=
  events.foldlM rlStep (RLState.init interval)

/-- The two events of round `i` of the throughput scenario: the pending
timer `i` fires 40ms after the previous dispatch, which dispatches task
`i + 1`; being of negligible duration, task `i + 1` settles at the same
instant. -/
def roundEvts (t0 i : Nat) : List RLEvent :=
  [.timerFire (t0 + 40 * i + 40) i, .taskComplete (t0 + 40 * i + 40) (i + 1)]

/-- The schedule of the throughput scenario: `N` tasks submitted at time
`t0`, every task of negligible duration (it settles at its dispatch time),
every timer firing exactly at its fire time.  Task `0` is dispatched
immediately and settles; the remaining tasks are queued; each later round
fires the pending timer and dispatches and settles the next task. -/
def scenarioTrace (t0 N : Nat) : List RLEvent :=
  match N with
  | 0 => []
  | n + 1 =>
    [.add t0 0, .taskComplete t0 0] ++
      (List.range' 1 n).map (fun i => RLEvent.add t0 i) ++
      (List.range' 0 n).flatMap (roundEvts t0)

/-! ## The seeded end-to-end scenario store (§8 of the spec) -/

/-- The two-event store of the end-to-end scenario: a mint of asset `"1"`
to Alice at height 100 and a transfer Alice → Bob at height 150. -/
def seededStore : List TransferEvent :=
  [⟨100, 0, "tx1", "0x0000000000000000000000000000000000000000", "Alice", "1"⟩,
   ⟨150, 0, "tx2", "Alice", "Bob", "1"⟩]

/-! ## Helper lemmas: sweep loop steps -/

theorem sweepLoop_exit {f : Nat → Nat → FetchResult} {hc : Int} {maxB fuel cur chunk : Nat}
    {ws : List (Nat × Nat)} (h : maxB < cur) :
    sweepLoop f hc maxB (fuel + 1) cur chunk ws = some ws := by
  simp [sweepLoop, h]

theorem sweepLoop_skip {f : Nat → Nat → FetchResult} {hc : Int} {maxB fuel cur chunk : Nat}
    {ws : List (Nat × Nat)} (h1 : cur ≤ maxB) (h2 : (cur : Int) < hc) :
    sweepLoop f hc maxB (fuel + 1) cur chunk ws = sweepLoop f hc maxB fuel hc.toNat chunk ws := by
  have h1' : ¬ maxB < cur := Nat.not_lt.mpr h1
  simp [sweepLoop, h1', h2]

theorem sweepLoop_success {f : Nat → Nat → FetchResult} {hc : Int} {maxB fuel cur chunk n : Nat}
    {ws : List (Nat × Nat)} (h1 : cur ≤ maxB) (h2 : ¬ (cur : Int) < hc)
    (h3 : f cur (min (cur + chunk - 1) maxB) = .success n) :
    sweepLoop f hc maxB (fuel + 1) cur chunk ws =
      sweepLoop f hc maxB fuel (min (cur + chunk - 1) maxB + 1) (adjustChunkSize chunk n)
        (ws ++ [(cur, min (cur + chunk - 1) maxB)]) := by
  have h1' : ¬ maxB < cur := Nat.not_lt.mpr h1
  simp [sweepLoop, h1', h2, h3]

/-! ## Claim theorems -/

/-- C1 (amended): with the store seeded as in the scenario (highest cached
height 150), target height 200, any genesis at or below 150 and any initial
chunk size of at least 51, the ingestion sweep performs exactly one window,
namely `[150, 200]` — the sweep resumes *at* the highest cached height, not
one past it — and the reducer over `[100, 200]` yields the single-entry map
`{"1": Bob}`. -/
theorem ingest_single_window_and_reduce (genesis chunk0 n : Nat)
    (fetch : Nat → Nat → FetchResult)
    (hg : genesis ≤ 150) (hc0 : 51 ≤ chunk0)
    (hf : fetch 150 200 = .success n) :
    ingestUpTo fetch seededStore genesis 200 chunk0 3 = some [(150, 200)] ∧
    getHolderMapByBlock seededStore 100 200 = [("1", "Bob")] := by
  constructor
  · have hstore : GetHighestCachedBlock seededStore = 150 := by decide
    have hmin : min (150 + chunk0 - 1) 200 = 200 := by omega
    have hno : ¬ ((150 : Int) ≥ (200 : Nat)) := by norm_num
    unfold ingestUpTo
    rw [hstore]
    simp only [hno, if_false]
    by_cases hlt : genesis < 150
    · have hskip : ((genesis : Nat) : Int) < (150 : Int) := by exact_mod_cast hlt
      rw [sweepLoop_skip (by omega) hskip]
      have : ((150 : Int)).toNat = 150 := by decide
      rw [this]
      rw [sweepLoop_success (by omega) (by norm_num) (by rw [hmin]; exact hf)]
      rw [hmin]
      exact sweepLoop_exit (by omega)
    · have hge : genesis = 150 := by omega
      subst hge
      rw [sweepLoop_success (by omega) (by norm_num) (by rw [hmin]; exact hf)]
      rw [hmin]
      exact sweepLoop_exit (by omega)
  · decide

/-- C1 witness: the amended theorem applied at genesis 100, initial chunk
size 50000 and an always-successful fetch. -/
theorem ingest_single_window_and_reduce_witness :
    ingestUpTo (fun _ _ => .success 2) seededStore 100 200 50000 3 = some [(150, 200)] ∧
    getHolderMapByBlock seededStore 100 200 = [("1", "Bob")] :=
  ingest_single_window_and_reduce 100 50000 2 (fun _ _ => .success 2)
    (by decide) (by decide) rfl

/-- C1 counterexample: in the seeded scenario the single sweep window the
code performs is `[150, 200]`, not `[151, 200]` as claimed — the resume step
sets `currentBlock = highestCachedBlock`, not `highestCachedBlock + 1`. -/
theorem ingest_window_is_150_not_151 :
    ingestUpTo (fun _ _ => .success 2) seededStore 100 200 50000 3 = some [(150, 200)] ∧
    ingestUpTo (fun _ _ => .success 2) seededStore 100 200 50000 3 ≠ some [(151, 200)] := by
  constructor
  · decide
  · decide

/-- C2: if any per-owner future in the aggregation rejects, `Promise.all`
rejects, the `catch` rethrows, and no partial total is returned. -/
theorem sumBalances_rejects_on_rejection {ε : Type} (outcomes : List (Except ε Int)) (e : ε)
    (h : Except.error e ∈ outcomes) :
    (∃ e', sumBalances outcomes = Except.error e') ∧
    ∀ total, sumBalances outcomes ≠ Except.ok total := by
  have key : ∀ (l : List (Except ε Int)), Except.error e ∈ l →
      ∃ e', promiseAll l = Except.error e' := by
    intro l hl
    induction l with
    | nil => cases hl
    | cons x xs ih =>
      rcases List.mem_cons.mp hl with hx | hxs
      · exact ⟨e, by rw [← hx]; rfl⟩
      · cases x with
        | error e'' => exact ⟨e'', rfl⟩
        | ok a =>
          obtain ⟨e', he'⟩ := ih hxs
          exact ⟨e', by simp [promiseAll, he']⟩
  obtain ⟨e', he'⟩ := key outcomes h
  refine ⟨⟨e', ?_⟩, ?_⟩
  · simp [sumBalances, he']
  · intro total
    simp [sumBalances, he']

/-- C2 witness: a two-owner aggregation whose second future rejects. -/
theorem sumBalances_rejects_on_rejection_witness :
    (∃ e', sumBalances [Except.ok 5, Except.error "boom"] = Except.error e') ∧
    ∀ total, sumBalances [Except.ok 5, Except.error "boom"] ≠ Except.ok total :=
  sumBalances_rejects_on_rejection [Except.ok 5, Except.error "boom"] "boom"
    (by simp)

/-- C4: the code evaluated at the claim's situation — a successful window
fetch returning 0 events with the chunk size at its initial 50000 — grows
the chunk size to 62500 (the 1.25× branch), not to the doubled 100000: the
`n === 0` doubling branch is unreachable because `0 < 1000` is captured by
the earlier 1.25× branch. -/
theorem adjustChunkSize_empty_window_not_doubled :
    adjustChunkSize INITIAL_CHUNK_SIZE 0 = 62500 ∧
    adjustChunkSize INITIAL_CHUNK_SIZE 0 ≠ 2 * INITIAL_CHUNK_SIZE := by
  constructor
  · decide
  · decide

/-- C5: starting from the initial chunk size 50000, any sequence of
successful-fetch adjustments (shrink, 1.25× growth, doubling) and
error-halvings keeps the chunk size within `[100, 150000]`. -/
theorem chunkSize_bounds_invariant (adjs : List ChunkAdj) :
    MIN_CHUNK_SIZE ≤ adjs.foldl applyChunkAdj INITIAL_CHUNK_SIZE ∧
    adjs.foldl applyChunkAdj INITIAL_CHUNK_SIZE ≤ MAX_CHUNK_SIZE := by
  have step : ∀ (a : ChunkAdj) (c : Nat),
      MIN_CHUNK_SIZE ≤ c → c ≤ MAX_CHUNK_SIZE →
      MIN_CHUNK_SIZE ≤ applyChunkAdj c a ∧ applyChunkAdj c a ≤ MAX_CHUNK_SIZE := by
    intro a c h1 h2
    unfold MIN_CHUNK_SIZE MAX_CHUNK_SIZE at *
    cases a with
    | success n =>
      simp only [applyChunkAdj, adjustChunkSize, MIN_CHUNK_SIZE, MAX_CHUNK_SIZE,
        MAX_LOGS_PER_QUERY, MIN_LOGS_TO_INCREASE_CHUNK]
      split_ifs <;> omega
    | errorTooMany =>
      simp only [applyChunkAdj, halveChunkSize, MIN_CHUNK_SIZE]
      omega
  have main : ∀ (l : List ChunkAdj) (c : Nat),
      MIN_CHUNK_SIZE ≤ c → c ≤ MAX_CHUNK_SIZE →
      MIN_CHUNK_SIZE ≤ l.foldl applyChunkAdj c ∧ l.foldl applyChunkAdj c ≤ MAX_CHUNK_SIZE := by
    intro l
    induction l with
    | nil => intro c h1 h2; exact ⟨h1, h2⟩
    | cons a rest ih =>
      intro c h1 h2
      obtain ⟨s1, s2⟩ := step a c h1 h2
      exact ih (applyChunkAdj c a) s1 s2
  exact main adjs INITIAL_CHUNK_SIZE (by decide) (by decide)

/-- C8: under `MAX_RETRIES = Infinity`, the `while` loop of
`fetchBalanceWithRetry` is, after any number of iterations, either still
retrying or has returned a fetched balance; the post-loop zero-balance
fallback is never reached. -/
theorem retry_fallback_unreachable (oracle : Nat → Option Int) (k : Nat) :
    (∃ a, (retryStep oracle)^[k] (RetryState.inLoop 0) = RetryState.inLoop a) ∨
    (∃ b, (retryStep oracle)^[k] (RetryState.inLoop 0) = RetryState.returned b) := by
  induction k with
  | zero => exact Or.inl ⟨0, rfl⟩
  | succ k ih =>
    rw [Function.iterate_succ_apply']
    rcases ih with ⟨a, ha⟩ | ⟨b, hb⟩
    · rw [ha]
      simp only [retryStep, retryGuard, MAX_RETRIES, if_true]
      cases h : oracle (a + 1) with
      | some b => exact Or.inr ⟨b, rfl⟩
      | none => exact Or.inl ⟨a + 1, rfl⟩
    · rw [hb]
      exact Or.inr ⟨b, rfl⟩

/-- C9: `row.maxBlock || -1` maps both an empty store and a store whose
maximum height is 0 to `-1`; for any store with positive maximum height it
returns that height. -/
theorem highestCachedBlock_zero_is_falsy :
    GetHighestCachedBlock [] = -1 ∧
    (∀ store, maxBlockOf store = some 0 → GetHighestCachedBlock store = -1) ∧
    (∀ store m, maxBlockOf store = some m → 0 < m → GetHighestCachedBlock store = m) := by
  refine ⟨rfl, ?_, ?_⟩
  · intro store h
    simp [GetHighestCachedBlock, jsOrNeg1, h]
  · intro store m h hm
    simp only [GetHighestCachedBlock, jsOrNeg1, h]
    have : m ≠ 0 := by omega
    simp [this]

/-- C9 witness: a store whose single row is at height 0 resolves to `-1`,
and one whose maximum height is 150 resolves to 150. -/
theorem highestCachedBlock_zero_is_falsy_witness :
    GetHighestCachedBlock [⟨0, 0, "t", "a", "b", "1"⟩] = -1 ∧
    GetHighestCachedBlock seededStore = 150 :=
  ⟨highestCachedBlock_zero_is_falsy.2.1 [⟨0, 0, "t", "a", "b", "1"⟩] (by decide),
   highestCachedBlock_zero_is_falsy.2.2 seededStore 150 (by decide) (by decide)⟩

/-- C10: when checkpoint resolution yields no block, `main` logs in the
`else` branch but still evaluates `block.number`, so the run aborts with a
`TypeError` on `null`, and no holder map, balance queries, or total are
produced. -/
theorem main_aborts_on_unresolved_checkpoint
    (getBlock : Int → Option BlockInfo) (target endBlock : Int) (fuel : Nat)
    (store : List TransferEvent) (balanceOf : String → Except String Int)
    (h : findBlockByTimestamp getBlock target endBlock fuel = none) :
    mainRun getBlock target endBlock fuel store balanceOf =
      Except.error "TypeError: Cannot read properties of null (reading number)" ∧
    ∀ total, mainRun getBlock target endBlock fuel store balanceOf ≠ Except.ok total := by
  have hmain : mainRun getBlock target endBlock fuel store balanceOf =
      Except.error "TypeError: Cannot read properties of null (reading number)" := by
    unfold mainRun
    rw [h]
    rfl
  exact ⟨hmain, fun total => by rw [hmain]; simp⟩

/-- C10 witness: a remote whose every checkpoint fetch returns nothing makes
the binary search break out with no block, and the run aborts. -/
theorem main_aborts_on_unresolved_checkpoint_witness :
    mainRun (fun _ => none) 0 10 5 [] (fun _ => Except.ok 0) =
      Except.error "TypeError: Cannot read properties of null (reading number)" ∧
    ∀ total, mainRun (fun _ => none) 0 10 5 [] (fun _ => Except.ok 0) ≠ Except.ok total :=
  main_aborts_on_unresolved_checkpoint (fun _ => none) 0 10 5 [] (fun _ => Except.ok 0) rfl

/-! ## Map lemmas for the ledger reducer -/

theorem mapGet_mapDelete_self (m : List (String × String)) (k : String) :
    mapGet (mapDelete m k) k = none := by
  unfold mapGet mapDelete
  rw [List.find?_eq_none.mpr]
  · rfl
  · intro x hx
    have h2 := (List.mem_filter.mp hx).2
    simp only [bne_iff_ne, ne_eq] at h2
    simp [h2]

theorem find?_map_update_found (m : List (String × String)) (k v : String)
    (h : m.any (fun p => p.1 == k) = true) :
    (((m.map fun p => if p.1 == k then (p.1, v) else p).find? (fun p => p.1 == k)).map
      Prod.snd) = some v := by
  induction m with
  | nil => simp at h
  | cons p rest ih =>
    rw [List.map_cons]
    by_cases hp : p.1 = k
    · have hupd : (if p.1 == k then (p.1, v) else p) = (p.1, v) := by
        rw [if_pos (by simp [hp])]
      rw [hupd, List.find?_cons_of_pos _ (by simp [hp])]
      rfl
    · have hupd : (if p.1 == k then (p.1, v) else p) = p := by
        rw [if_neg (by simp [hp])]
      have hrest : rest.any (fun p => p.1 == k) = true := by
        rw [List.any_cons] at h
        rcases Bool.or_eq_true_iff.mp h with h1 | h1
        · exact absurd (by simpa using h1) hp
        · exact h1
      rw [hupd, List.find?_cons_of_neg _ (by simp [hp])]
      exact ih hrest

theorem find?_append_single_found (m : List (String × String)) (k v : String)
    (h : m.any (fun p => p.1 == k) = false) :
    (((m ++ [(k, v)]).find? (fun p => p.1 == k)).map Prod.snd) = some v := by
  induction m with
  | nil =>
    rw [List.nil_append, List.find?_cons_of_pos _ (by simp)]
    rfl
  | cons p rest ih =>
    rw [List.any_cons, Bool.or_eq_false_iff] at h
    have hp : ¬ ((p.1 == k) = true) := by rw [h.1]; simp
    rw [List.cons_append,
      List.find?_cons_of_neg (p := fun q => q.1 == k) (a := p) _ hp]
    exact ih h.2

theorem mapGet_mapSet_self (m : List (String × String)) (k v : String) :
    mapGet (mapSet m k v) k = some v := by
  unfold mapGet mapSet
  by_cases hany : m.any (fun p => p.1 == k) = true
  · rw [if_pos hany]
    exact find?_map_update_found m k v hany
  · rw [if_neg hany]
    exact find?_append_single_found m k v (Bool.not_eq_true _ ▸ hany)

theorem mapGet_mapDelete_other (m : List (String × String)) (k X : String) (h : k ≠ X) :
    mapGet (mapDelete m k) X = mapGet m X := by
  unfold mapGet mapDelete
  induction m with
  | nil => rfl
  | cons p rest ih =>
    by_cases hp : p.1 = k
    · have hXne : ¬ ((p.1 == X) = true) := by
        simp only [hp, beq_iff_eq]
        exact h
      rw [List.filter_cons_of_neg (by simp [hp]),
        List.find?_cons_of_neg (p := fun q => q.1 == X) (a := p) _ hXne]
      exact ih
    · rw [List.filter_cons_of_pos (by simp [bne_iff_ne, hp])]
      by_cases hX : p.1 = X
      · rw [List.find?_cons_of_pos _ (by simp [hX]), List.find?_cons_of_pos _ (by simp [hX])]
      · rw [List.find?_cons_of_neg _ (by simp [hX]), List.find?_cons_of_neg _ (by simp [hX])]
        exact ih

theorem mapGet_mapSet_other (m : List (String × String)) (k v X : String) (h : k ≠ X) :
    mapGet (mapSet m k v) X = mapGet m X := by
  unfold mapGet mapSet
  by_cases hany : m.any (fun p => p.1 == k) = true
  · rw [if_pos hany]
    clear hany
    induction m with
    | nil => rfl
    | cons p rest ih =>
      rw [List.map_cons]
      by_cases hp : p.1 = k
      · have hupd : (if p.1 == k then (p.1, v) else p) = (p.1, v) := by
          rw [if_pos (by simp [hp])]
        have hXne : ¬ ((p.1 == X) = true) := by
          simp only [hp, beq_iff_eq]
          exact h
        rw [hupd,
          List.find?_cons_of_neg (p := fun q => q.1 == X) (a := (p.1, v)) _ hXne,
          List.find?_cons_of_neg (p := fun q => q.1 == X) (a := p) _ hXne]
        exact ih
      · have hupd : (if p.1 == k then (p.1, v) else p) = p := by
          rw [if_neg (by simp [hp])]
        rw [hupd]
        by_cases hX : p.1 = X
        · rw [List.find?_cons_of_pos _ (by simp [hX]), List.find?_cons_of_pos _ (by simp [hX])]
        · rw [List.find?_cons_of_neg _ (by simp [hX]), List.find?_cons_of_neg _ (by simp [hX])]
          exact ih
  · rw [if_neg hany]
    clear hany
    induction m with
    | nil =>
      rw [List.nil_append,
        List.find?_cons_of_neg (p := fun q => q.1 == X) (a := (k, v)) _
          (by simp only [beq_iff_eq]; exact h),
        List.find?_nil]
    | cons p rest ih =>
      rw [List.cons_append]
      by_cases hX : p.1 = X
      · rw [List.find?_cons_of_pos _ (by simp [hX]), List.find?_cons_of_pos _ (by simp [hX])]
      · rw [List.find?_cons_of_neg _ (by simp [hX]), List.find?_cons_of_neg _ (by simp [hX])]
        exact ih

theorem mapGet_applyTransfer_other (m : List (String × String)) (e : TransferEvent)
    (X : String) (h : e.tokenId ≠ X) :
    mapGet (applyTransfer m e) X = mapGet m X := by
  unfold applyTransfer
  by_cases hburn : e.toAddress = zeroAddress
  · rw [if_pos (by simp [hburn])]
    exact mapGet_mapDelete_other m e.tokenId X h
  · rw [if_neg (by simp only [beq_iff_eq]; exact hburn)]
    exact mapGet_mapSet_other m e.tokenId e.toAddress X h

/-- The value the spec's in-order replay assigns to asset `X` after folding
`evs` over an accumulator whose current value at `X` is `dflt`. -/
def lastApplied (X : String) (evs : List TransferEvent) (dflt : Option String) :
    Option String :=
  match (evs.filter fun e => e.tokenId == X).getLast? with
  | none => dflt
  | some e => if e.toAddress == zeroAddress then none else some e.toAddress

theorem foldl_applyTransfer_get (evs : List TransferEvent) :
    ∀ (m : List (String × String)) (X : String),
      mapGet (evs.foldl applyTransfer m) X = lastApplied X evs (mapGet m X) := by
  induction evs using List.reverseRecOn with
  | nil => intro m X; rfl
  | append_singleton ys a ih =>
    intro m X
    have hfold : (ys ++ [a]).foldl applyTransfer m =
        applyTransfer (ys.foldl applyTransfer m) a := by
      rw [List.foldl_append]
      rfl
    rw [hfold]
    by_cases ha : a.tokenId = X
    · have hfilter : ((ys ++ [a]).filter fun e => e.tokenId == X) =
          (ys.filter fun e => e.tokenId == X) ++ [a] := by
        simp [List.filter_append, List.filter_cons, ha]
      simp only [lastApplied, hfilter, List.getLast?_concat]
      unfold applyTransfer
      by_cases hburn : a.toAddress = zeroAddress
      · rw [if_pos (by simp [hburn]), if_pos (by simp [hburn]), ha]
        exact mapGet_mapDelete_self _ X
      · rw [if_neg (by simp only [beq_iff_eq]; exact hburn),
          if_neg (by simp only [beq_iff_eq]; exact hburn), ha]
        exact mapGet_mapSet_self _ X a.toAddress
    · have hfilter : ((ys ++ [a]).filter fun e => e.tokenId == X) =
          ys.filter fun e => e.tokenId == X := by
        simp [List.filter_append, List.filter_cons, ha]
      rw [mapGet_applyTransfer_other _ a X ha, ih m X]
      unfold lastApplied
      rw [hfilter]

/-- C6: the reducer reads the cached range ordered by
`(checkpointHeight ASC, logIndex ASC)` and folds it with the burn rule; its
value at every asset equals the spec's reference in-order replay (the `to`
of the asset's last event in the range, absent when that last event is a
burn), so an asset whose last applied event is a burn has no entry even if
it had prior owners. -/
theorem holderMap_ordered_fold_burn (store : List TransferEvent) (fromB toB : Nat) :
    List.Sorted evLE (getEventsByBlockRange store fromB toB) ∧
    getHolderMapByBlock store fromB toB =
      (getEventsByBlockRange store fromB toB).foldl applyTransfer [] ∧
    (∀ X, mapGet (getHolderMapByBlock store fromB toB) X = ledgerSpecAt store fromB toB X) ∧
    (∀ X e, lastTokenEvent X (getEventsByBlockRange store fromB toB) = some e →
       e.toAddress = zeroAddress →
       mapGet (getHolderMapByBlock store fromB toB) X = none) := by
  have hpoint : ∀ X, mapGet (getHolderMapByBlock store fromB toB) X =
      ledgerSpecAt store fromB toB X := by
    intro X
    unfold getHolderMapByBlock
    rw [foldl_applyTransfer_get]
    unfold lastApplied ledgerSpecAt lastTokenEvent
    cases hl :
        ((getEventsByBlockRange store fromB toB).filter fun e => e.tokenId == X).getLast? with
    | none => rfl
    | some e => rfl
  refine ⟨List.sorted_insertionSort evLE _, rfl, hpoint, ?_⟩
  intro X e hlast hburn
  rw [hpoint X]
  unfold ledgerSpecAt
  rw [hlast]
  simp [hburn]

/-- The event the C6 witness burns with. -/
def burnEvent : TransferEvent :=
  ⟨2, 0, "t2", "Alice", "0x0000000000000000000000000000000000000000", "1"⟩

/-- A store where asset `"1"` is first owned by Alice and then burned. -/
def burnStore : List TransferEvent :=
  [⟨1, 0, "t1", "0x0000000000000000000000000000000000000000", "Alice", "1"⟩, burnEvent]

/-- C6 witness: in `burnStore` the last event for asset `"1"` is a burn, and
the reduced ledger has no entry for it despite the prior owner Alice. -/
theorem holderMap_ordered_fold_burn_witness :
    mapGet (getHolderMapByBlock burnStore 0 10) "1" = none :=
  (holderMap_ordered_fold_burn burnStore 0 10).2.2.2 "1" burnEvent (by decide) (by decide)

/-! ## Resolved forms of the rate-limiter transitions -/

theorem rlDispatch_guarded {t : Nat} {s : RLState} (h : s.timeoutId.isSome) :
    rlDispatch t s = s := by
  simp [rlDispatch, h]

theorem rlDispatch_empty {t : Nat} {s : RLState} (h1 : s.timeoutId = none)
    (h2 : s.queue = []) :
    rlDispatch t s = s := by
  simp [rlDispatch, h1, h2]

theorem rlDispatch_run {t : Nat} {s : RLState} {task : Nat} {rest : List Nat}
    (h1 : s.timeoutId = none) (h2 : s.queue = task :: rest)
    (h3 : s.interval ≤ t - s.lastDispatchTime) :
    rlDispatch t s =
      { s with
          queue := rest
          lastDispatchTime := t
          running := s.running ++ [task]
          dispatched := s.dispatched ++ [(task, t)] } := by
  simp [rlDispatch, h1, h2, h3]

theorem rlDispatch_arm {t : Nat} {s : RLState} {task : Nat} {rest : List Nat}
    (h1 : s.timeoutId = none) (h2 : s.queue = task :: rest)
    (h3 : ¬ s.interval ≤ t - s.lastDispatchTime) :
    rlDispatch t s =
      { s with
          timeoutId := some s.nextTimerId
          pendingTimers :=
            s.pendingTimers ++ [(s.nextTimerId, t + (s.interval - (t - s.lastDispatchTime)))]
          nextTimerId := s.nextTimerId + 1
          maxPendingCount := max s.maxPendingCount (s.pendingTimers.length + 1) } := by
  simp [rlDispatch, h1, h2, h3]

theorem rlStep_add {s : RLState} {t id : Nat} (h1 : s.now ≤ t) (h2 : id ∉ s.added) :
    rlStep s (.add t id) =
      some (rlDispatch t { s with now := t, queue := s.queue ++ [id], added := s.added ++ [id] }) := by
  simp [rlStep, h1, h2]

theorem rlStep_complete {s : RLState} {t id : Nat} (h1 : s.now ≤ t) (h2 : id ∈ s.running) :
    rlStep s (.taskComplete t id) =
      some (rlDispatch t
        { s with
            now := t
            running := s.running.erase id
            timeoutId := none
            completedWhileTimerPending :=
              s.completedWhileTimerPending || !s.pendingTimers.isEmpty }) := by
  simp [rlStep, h1, h2]

theorem rlStep_fire {s : RLState} {t tid : Nat} {pr : Nat × Nat}
    (hfind : s.pendingTimers.find? (fun p => p.1 == tid) = some pr)
    (h1 : s.now ≤ t) (h2 : pr.2 ≤ t) :
    rlStep s (.timerFire t tid) =
      some (rlDispatch t
        { s with
            now := t
            pendingTimers := s.pendingTimers.filter (fun p => p.1 != tid)
            timeoutId := none }) := by
  simp [rlStep, hfind, h1, h2]

/-- A run-preserved property transfers along `foldlM` over `rlStep`. -/
theorem foldlM_rlStep_inv (P : RLState → Prop)
    (hstep : ∀ s ev s', P s → rlStep s ev = some s' → P s') :
    ∀ (events : List RLEvent) (s0 s : RLState),
      events.foldlM rlStep s0 = some s → P s0 → P s := by
  intro events
  induction events with
  | nil =>
    intro s0 s hrun h0
    simp only [List.foldlM_nil] at hrun
    cases hrun
    exact h0
  | cons ev evs ih =>
    intro s0 s hrun h0
    rw [List.foldlM_cons] at hrun
    cases h1 : rlStep s0 ev with
    | none => rw [h1] at hrun; cases hrun
    | some s1 =>
      rw [h1] at hrun
      exact ih s1 s hrun (hstep s0 ev s1 h0 h1)

/-! ## C7: the single-pending-timer guard -/

/-- A rate-limiter state with a correctly tracked single timer: either no
timer is pending and none is referenced, or exactly one is pending and
`timeoutId` references it. -/
def atMostOneTimer (s : RLState) : Prop :=
  (s.pendingTimers = [] ∧ s.timeoutId = none) ∨
  (∃ tid ft, s.pendingTimers = [(tid, ft)] ∧ s.timeoutId = some tid)

/-- The C7 state invariant: either some task already settled while a timer
was pending (the clobbering situation), or the single-timer discipline and
the `maxPendingCount ≤ 1` bound both hold. -/
def rlTimerInv (s : RLState) : Prop :=
  s.completedWhileTimerPending = true ∨
    (atMostOneTimer s ∧ s.maxPendingCount ≤ 1)

theorem rlDispatch_timerInv {t : Nat} {s : RLState}
    (h : atMostOneTimer s) (hm : s.maxPendingCount ≤ 1) :
    atMostOneTimer (rlDispatch t s) ∧ (rlDispatch t s).maxPendingCount ≤ 1 ∧
      (rlDispatch t s).completedWhileTimerPending = s.completedWhileTimerPending := by
  rcases h with ⟨hp, ht⟩ | ⟨tid, ft, hp, ht⟩
  · cases hq : s.queue with
    | nil => rw [rlDispatch_empty ht hq]; exact ⟨Or.inl ⟨hp, ht⟩, hm, rfl⟩
    | cons task rest =>
      by_cases hi : s.interval ≤ t - s.lastDispatchTime
      · rw [rlDispatch_run ht hq hi]
        exact ⟨Or.inl ⟨hp, ht⟩, hm, rfl⟩
      · rw [rlDispatch_arm ht hq hi]
        refine ⟨Or.inr ⟨s.nextTimerId, t + (s.interval - (t - s.lastDispatchTime)), ?_, rfl⟩, ?_, rfl⟩
        · rw [hp]; rfl
        · simp only [hp, List.length_nil]
          omega
  · have hsome : s.timeoutId.isSome := by rw [ht]; rfl
    rw [rlDispatch_guarded hsome]
    exact ⟨Or.inr ⟨tid, ft, hp, ht⟩, hm, rfl⟩

theorem rlStep_timerInv (s : RLState) (ev : RLEvent) (s' : RLState)
    (h : rlTimerInv s) (hstep : rlStep s ev = some s') : rlTimerInv s' := by
  cases ev with
  | add t id =>
    by_cases hc : s.now ≤ t ∧ id ∉ s.added
    · rw [rlStep_add hc.1 hc.2] at hstep
      cases hstep
      rcases h with hflag | ⟨h1, h2⟩
      · -- the flag is monotone through add and dispatch
        set s1 : RLState :=
          { s with now := t, queue := s.queue ++ [id], added := s.added ++ [id] } with hs1
        have : (rlDispatch t s1).completedWhileTimerPending = true ∨
            (atMostOneTimer (rlDispatch t s1) ∧ (rlDispatch t s1).maxPendingCount ≤ 1) := by
          by_cases hone : atMostOneTimer s1 ∧ s1.maxPendingCount ≤ 1
          · exact Or.inr ⟨(rlDispatch_timerInv (t := t) hone.1 hone.2).1, (rlDispatch_timerInv (t := t) hone.1 hone.2).2.1⟩
          · left
            -- without the single-timer structure we still know the flag carried over
            cases hq : s1.queue with
            | nil =>
              by_cases hti : s1.timeoutId = none
              · rw [rlDispatch_empty hti hq]; exact hflag
              · have : s1.timeoutId.isSome := Option.ne_none_iff_isSome.mp hti
                rw [rlDispatch_guarded this]; exact hflag
            | cons task rest =>
              by_cases hti : s1.timeoutId = none
              · by_cases hi : s1.interval ≤ t - s1.lastDispatchTime
                · rw [rlDispatch_run hti hq hi]; exact hflag
                · rw [rlDispatch_arm hti hq hi]; exact hflag
              · have : s1.timeoutId.isSome := Option.ne_none_iff_isSome.mp hti
                rw [rlDispatch_guarded this]; exact hflag
        exact this.imp (fun hh => hh) (fun hh => ⟨hh.1, hh.2⟩)
      · have hone : atMostOneTimer
            { s with now := t, queue := s.queue ++ [id], added := s.added ++ [id] } := by
          rcases h1 with ⟨hp, ht⟩ | ⟨tid, ft, hp, ht⟩
          · exact Or.inl ⟨hp, ht⟩
          · exact Or.inr ⟨tid, ft, hp, ht⟩
        have := rlDispatch_timerInv (t := t) hone h2
        exact Or.inr ⟨this.1, this.2.1⟩
    · rw [rlStep] at hstep
      rw [if_neg hc] at hstep
      cases hstep
  | taskComplete t id =>
    by_cases hc : s.now ≤ t ∧ id ∈ s.running
    · rw [rlStep_complete hc.1 hc.2] at hstep
      cases hstep
      rcases h with hflag | ⟨h1, h2⟩
      · -- flag already true: it stays true through the completion and dispatch
        set s1 : RLState :=
          { s with
              now := t
              running := s.running.erase id
              timeoutId := none
              completedWhileTimerPending :=
                s.completedWhileTimerPending || !s.pendingTimers.isEmpty } with hs1
        have hflag1 : s1.completedWhileTimerPending = true := by
          simp [hs1, hflag]
        left
        cases hq : s1.queue with
        | nil => rw [rlDispatch_empty rfl hq]; exact hflag1
        | cons task rest =>
          by_cases hi : s1.interval ≤ t - s1.lastDispatchTime
          · rw [rlDispatch_run rfl hq hi]; exact hflag1
          · rw [rlDispatch_arm rfl hq hi]; exact hflag1
      · rcases h1 with ⟨hp, ht⟩ | ⟨tid, ft, hp, ht⟩
        · -- no timer pending: flag stays false, one timer may be armed
          have hone : atMostOneTimer
              { s with
                  now := t
                  running := s.running.erase id
                  timeoutId := none
                  completedWhileTimerPending :=
                    s.completedWhileTimerPending || !s.pendingTimers.isEmpty } := by
            exact Or.inl ⟨hp, rfl⟩
          have := rlDispatch_timerInv (t := t) hone h2
          exact Or.inr ⟨this.1, this.2.1⟩
        · -- a timer was pending: this completion sets the clobbering flag
          set s1 : RLState :=
            { s with
                now := t
                running := s.running.erase id
                timeoutId := none
                completedWhileTimerPending :=
                  s.completedWhileTimerPending || !s.pendingTimers.isEmpty } with hs1
          have hflag1 : s1.completedWhileTimerPending = true := by
            simp [hs1, hp]
          left
          cases hq : s1.queue with
          | nil => rw [rlDispatch_empty rfl hq]; exact hflag1
          | cons task rest =>
            by_cases hi : s1.interval ≤ t - s1.lastDispatchTime
            · rw [rlDispatch_run rfl hq hi]; exact hflag1
            · rw [rlDispatch_arm rfl hq hi]; exact hflag1
    · rw [rlStep] at hstep
      rw [if_neg hc] at hstep
      cases hstep
  | timerFire t tid =>
    cases hfind : s.pendingTimers.find? (fun p => p.1 == tid) with
    | none => rw [rlStep, hfind] at hstep; cases hstep
    | some pr =>
      by_cases hc : s.now ≤ t ∧ pr.2 ≤ t
      · rw [rlStep_fire hfind hc.1 hc.2] at hstep
        cases hstep
        rcases h with hflag | ⟨h1, h2⟩
        · set s1 : RLState :=
            { s with
                now := t
                pendingTimers := s.pendingTimers.filter (fun p => p.1 != tid)
                timeoutId := none } with hs1
          left
          cases hq : s1.queue with
          | nil => rw [rlDispatch_empty rfl hq]; exact hflag
          | cons task rest =>
            by_cases hi : s1.interval ≤ t - s1.lastDispatchTime
            · rw [rlDispatch_run rfl hq hi]; exact hflag
            · rw [rlDispatch_arm rfl hq hi]; exact hflag
        · rcases h1 with ⟨hp, ht⟩ | ⟨tid0, ft, hp, ht⟩
          · rw [hp] at hfind; cases hfind
          · have hone : atMostOneTimer
                { s with
                    now := t
                    pendingTimers := s.pendingTimers.filter (fun p => p.1 != tid)
                    timeoutId := none } := by
              left
              constructor
              · rw [hp] at hfind
                rw [hp]
                -- the found timer in the singleton list is the one removed
                have : tid0 = tid := by
                  by_cases he : tid0 = tid
                  · exact he
                  · exfalso
                    rw [List.find?_cons_of_neg (p := fun q => q.1 == tid) (a := (tid0, ft)) _
                        (by simp [he]), List.find?_nil] at hfind
                    cases hfind
                rw [List.filter_cons_of_neg (by simp [this]), List.filter_nil]
              · rfl
            have := rlDispatch_timerInv (t := t) hone h2
            exact Or.inr ⟨this.1, this.2.1⟩
      · simp only [rlStep, hfind] at hstep
        rw [if_neg hc] at hstep
        cases hstep

/-- C7 (amended): the idempotent scheduling guard keeps at most one timer
pending across every interleaving in which no task settles while a timer is
pending; when a task does settle while a timer is pending, its `.finally`
handler unconditionally clears `timeoutId`, so a second timer can be armed
while the first is still pending. -/
theorem rateLimiter_single_timer_unless_clobbered
    (interval : Nat) (events : List RLEvent) (s : RLState)
    (hrun : runRL interval events = some s)
    (hflag : s.completedWhileTimerPending = false) :
    s.maxPendingCount ≤ 1 := by
  have hinv : rlTimerInv s := by
    refine foldlM_rlStep_inv rlTimerInv rlStep_timerInv events (RLState.init interval) s hrun ?_
    exact Or.inr ⟨Or.inl ⟨rfl, rfl⟩, by simp [RLState.init]⟩
  rcases hinv with h | h
  · rw [hflag] at h; cases h
  · exact h.2

/-- The final state of the C7 witness trace: two tasks submitted 40ms apart
would queue one and arm one timer; no task has settled yet. -/
def rlC7WitnessState : RLState :=
  { interval := 40
    queue := [1]
    lastDispatchTime := 100
    timeoutId := some 0
    pendingTimers := [(0, 140)]
    running := [0]
    dispatched := [(0, 100)]
    added := [0, 1]
    nextTimerId := 1
    now := 100
    maxPendingCount := 1
    completedWhileTimerPending := false }

/-- C7 witness: the amended theorem applied to a concrete clobber-free trace
(two submissions, no settlement yet). -/
theorem rateLimiter_single_timer_unless_clobbered_witness :
    rlC7WitnessState.maxPendingCount ≤ 1 :=
  rateLimiter_single_timer_unless_clobbered 40
    [RLEvent.add 100 0, RLEvent.add 100 1] rlC7WitnessState (by decide) (by decide)

/-- C7 counterexample: in the trace where task 0 is dispatched at `t=100`,
task 1 is submitted at `t=100` (arming a timer for `t=140`) and task 0
settles at `t=110`, the settlement clears the timer reference and the
re-dispatch arms a second timer — two timers are pending simultaneously,
refuting the claimed invariant. -/
theorem rateLimiter_two_timers_pending :
    (runRL 40 [RLEvent.add 100 0, RLEvent.add 100 1, RLEvent.taskComplete 110 0]).map
        (fun s => (s.pendingTimers, s.maxPendingCount)) =
      some ([(0, 140), (1, 140)], 2) := by
  decide

/-! ## C3 scenario machinery -/

theorem foldlM_rlStep_cons_some {s s' : RLState} {ev : RLEvent} {evs : List RLEvent}
    (h : rlStep s ev = some s') :
    (ev :: evs).foldlM rlStep s = evs.foldlM rlStep s' := by
  rw [List.foldlM_cons, h]
  rfl

theorem foldlM_rlStep_append_some {l1 l2 : List RLEvent} {s s1 : RLState}
    (h : l1.foldlM rlStep s = some s1) :
    (l1 ++ l2).foldlM rlStep s = l2.foldlM rlStep s1 := by
  rw [List.foldlM_append, h]
  rfl

theorem range'_concat_own (s j : Nat) : List.range' s j ++ [s + j] = List.range' s (j + 1) := by
  induction j generalizing s with
  | zero => rfl
  | succ j ih =>
    rw [List.range'_succ, List.cons_append, show s + (j + 1) = (s + 1) + j from by omega,
      ih (s + 1), ← List.range'_succ]

theorem range'_one_concat (j : Nat) : List.range' 1 j ++ [j + 1] = List.range' 1 (j + 1) := by
  have h := range'_concat_own 1 j
  rw [show (1 : Nat) + j = j + 1 from by omega] at h
  exact h

theorem map_range_concat (t0 k : Nat) :
    (List.range k).map (fun j => (j, t0 + 40 * j)) ++ [(k, t0 + 40 * k)] =
    (List.range (k + 1)).map (fun j => (j, t0 + 40 * j)) := by
  rw [List.range_succ, List.map_append]
  rfl

/-- The state of the scenario before round `k`: tasks `0..k` dispatched, one
timer pending for 40ms after the last dispatch. -/
def scenMid (t0 N k : Nat) : RLState :=
  { interval := 40
    queue := List.range' (k + 1) (N - 1 - k)
    lastDispatchTime := t0 + 40 * k
    timeoutId := some k
    pendingTimers := [(k, t0 + 40 * k + 40)]
    running := []
    dispatched := (List.range (k + 1)).map (fun j => (j, t0 + 40 * j))
    added := List.range N
    nextTimerId := k + 1
    now := t0 + 40 * k
    maxPendingCount := 1
    completedWhileTimerPending := false }

/-- The state after the timer of round `k` fires and task `k + 1` starts. -/
def scenAfterFire (t0 N k : Nat) : RLState :=
  { interval := 40
    queue := List.range' (k + 2) (N - 2 - k)
    lastDispatchTime := t0 + 40 * k + 40
    timeoutId := none
    pendingTimers := []
    running := [k + 1]
    dispatched := (List.range (k + 2)).map (fun j => (j, t0 + 40 * j))
    added := List.range N
    nextTimerId := k + 1
    now := t0 + 40 * k + 40
    maxPendingCount := 1
    completedWhileTimerPending := false }

/-- The quiescent state at the end of the scenario: everything dispatched at
40ms spacing and settled, nothing queued or pending. -/
def scenFinal (t0 N : Nat) : RLState :=
  { interval := 40
    queue := []
    lastDispatchTime := t0 + 40 * (N - 1)
    timeoutId := none
    pendingTimers := []
    running := []
    dispatched := (List.range N).map (fun j => (j, t0 + 40 * j))
    added := List.range N
    nextTimerId := N - 1
    now := t0 + 40 * (N - 1)
    maxPendingCount := 1
    completedWhileTimerPending := false }

theorem scen_fire_step (t0 N k : Nat) (hk : k + 2 ≤ N) :
    rlStep (scenMid t0 N k) (.timerFire (t0 + 40 * k + 40) k) = some (scenAfterFire t0 N k) := by
  have hfind : (scenMid t0 N k).pendingTimers.find? (fun p => p.1 == k) =
      some (k, t0 + 40 * k + 40) := by
    simp [scenMid, List.find?]
  rw [rlStep_fire hfind (show (scenMid t0 N k).now ≤ t0 + 40 * k + 40 by
      show t0 + 40 * k ≤ t0 + 40 * k + 40; omega)
    (show (k, t0 + 40 * k + 40).2 ≤ t0 + 40 * k + 40 by omega)]
  have hq : List.range' (k + 1) (N - 1 - k) = (k + 1) :: List.range' (k + 2) (N - 2 - k) := by
    have h : N - 1 - k = (N - 2 - k) + 1 := by omega
    rw [h, List.range'_succ]
  rw [rlDispatch_run rfl (show _ = (k + 1) :: List.range' (k + 2) (N - 2 - k) from hq)
    (show (40 : Nat) ≤ (t0 + 40 * k + 40) - (t0 + 40 * k) by omega)]
  have hpend : (scenMid t0 N k).pendingTimers.filter (fun p => p.1 != k) = [] := by
    simp [scenMid]
  have hdisp : (scenMid t0 N k).dispatched ++ [(k + 1, t0 + 40 * k + 40)] =
      (List.range (k + 2)).map (fun j => (j, t0 + 40 * j)) := by
    show (List.range (k + 1)).map (fun j => (j, t0 + 40 * j)) ++ [(k + 1, t0 + 40 * k + 40)] = _
    have h40 : t0 + 40 * k + 40 = t0 + 40 * (k + 1) := by ring
    rw [h40, map_range_concat t0 (k + 1)]
  rw [hpend, hdisp]
  rfl

theorem scen_complete_mid (t0 N k : Nat) (hk : k + 3 ≤ N) :
    rlStep (scenAfterFire t0 N k) (.taskComplete (t0 + 40 * k + 40) (k + 1)) =
      some (scenMid t0 N (k + 1)) := by
  rw [rlStep_complete (show (scenAfterFire t0 N k).now ≤ t0 + 40 * k + 40 from le_refl _)
    (show (k + 1) ∈ (scenAfterFire t0 N k).running by simp [scenAfterFire])]
  simp only [scenAfterFire]
  rw [show ([k + 1] : List Nat).erase (k + 1) = [] from by simp]
  rw [rlDispatch_arm rfl (show _ = (k + 2) :: List.range' (k + 3) (N - 3 - k) from by
      rw [show N - 2 - k = (N - 3 - k) + 1 from by omega, List.range'_succ])
    (show ¬ (40 : Nat) ≤ (t0 + 40 * k + 40) - (t0 + 40 * k + 40) from by omega)]
  rw [show (t0 + 40 * k + 40) + (40 - ((t0 + 40 * k + 40) - (t0 + 40 * k + 40))) =
      t0 + 40 * (k + 1) + 40 from by omega]
  rw [show N - 2 - k = N - 1 - (k + 1) from by omega]
  rw [show t0 + 40 * k + 40 = t0 + 40 * (k + 1) from by omega]
  rfl

theorem scen_complete_last (t0 N k : Nat) (hN : N = k + 2) :
    rlStep (scenAfterFire t0 N k) (.taskComplete (t0 + 40 * k + 40) (k + 1)) =
      some (scenFinal t0 N) := by
  subst hN
  rw [rlStep_complete (show (scenAfterFire t0 (k + 2) k).now ≤ t0 + 40 * k + 40 from le_refl _)
    (show (k + 1) ∈ (scenAfterFire t0 (k + 2) k).running by simp [scenAfterFire])]
  simp only [scenAfterFire]
  rw [show ([k + 1] : List Nat).erase (k + 1) = [] from by simp]
  rw [rlDispatch_empty rfl (show _ = ([] : List Nat) from by
      rw [show (k + 2) - 2 - k = 0 from by omega]
      rfl)]
  rw [show t0 + 40 * k + 40 = t0 + 40 * ((k + 2) - 1) from by omega]
  rw [show (k + 2) - 2 - k = 0 from by omega]
  rfl

theorem scen_rounds (t0 : Nat) (r : Nat) :
    ∀ (k N : Nat), N = k + r + 2 →
      ((List.range' k (r + 1)).flatMap (roundEvts t0)).foldlM rlStep (scenMid t0 N k) =
        some (scenFinal t0 N) := by
  induction r with
  | zero =>
    intro k N hN
    rw [show List.range' k (0 + 1) = [k] from by rw [List.range'_succ]; rfl]
    rw [show ([k] : List Nat).flatMap (roundEvts t0) =
        [RLEvent.timerFire (t0 + 40 * k + 40) k, RLEvent.taskComplete (t0 + 40 * k + 40) (k + 1)]
      from by simp [roundEvts]]
    rw [foldlM_rlStep_cons_some (scen_fire_step t0 N k (by omega))]
    rw [foldlM_rlStep_cons_some (scen_complete_last t0 N k (by omega))]
    rfl
  | succ r ih =>
    intro k N hN
    rw [List.range'_succ, List.flatMap_cons]
    rw [show roundEvts t0 k ++ (List.range' (k + 1) (r + 1)).flatMap (roundEvts t0) =
        RLEvent.timerFire (t0 + 40 * k + 40) k :: RLEvent.taskComplete (t0 + 40 * k + 40) (k + 1) ::
          (List.range' (k + 1) (r + 1)).flatMap (roundEvts t0) from rfl]
    rw [foldlM_rlStep_cons_some (scen_fire_step t0 N k (by omega))]
    rw [foldlM_rlStep_cons_some (scen_complete_mid t0 N k (by omega))]
    exact ih (k + 1) N (by omega)

/-- The state right after task 0 is dispatched at `t0`. -/
def scenRun0 (t0 : Nat) : RLState :=
  { interval := 40
    queue := []
    lastDispatchTime := t0
    timeoutId := none
    pendingTimers := []
    running := [0]
    dispatched := [(0, t0)]
    added := [0]
    nextTimerId := 0
    now := t0
    maxPendingCount := 0
    completedWhileTimerPending := false }

/-- The state after task 0 has been dispatched and has settled. -/
def scenStart (t0 : Nat) : RLState :=
  { scenRun0 t0 with running := [] }

theorem scen_start_steps (t0 : Nat) (h40 : 40 ≤ t0) :
    [RLEvent.add t0 0, RLEvent.taskComplete t0 0].foldlM rlStep (RLState.init 40) =
      some (scenStart t0) := by
  have h1 : rlStep (RLState.init 40) (.add t0 0) = some (scenRun0 t0) := by
    rw [rlStep_add (show (RLState.init 40).now ≤ t0 by show 0 ≤ t0; omega)
      (show 0 ∉ (RLState.init 40).added by simp [RLState.init])]
    rw [rlDispatch_run rfl (show _ = 0 :: ([] : List Nat) from rfl)
      (show (40 : Nat) ≤ t0 - 0 by omega)]
    rfl
  have h2 : rlStep (scenRun0 t0) (.taskComplete t0 0) = some (scenStart t0) := by
    rw [rlStep_complete (show (scenRun0 t0).now ≤ t0 from le_refl t0)
      (show 0 ∈ (scenRun0 t0).running by simp [scenRun0])]
    rw [show (scenRun0 t0).running.erase 0 = [] from by simp [scenRun0]]
    rw [rlDispatch_empty rfl (show _ = ([] : List Nat) from rfl)]
    rfl
  rw [foldlM_rlStep_cons_some h1, foldlM_rlStep_cons_some h2]
  rfl

/-- The state after the submissions of tasks `1..j` have been processed:
task 1's submission armed the timer, the rest only queued up. -/
def scenQueued (t0 j : Nat) : RLState :=
  { interval := 40
    queue := List.range' 1 j
    lastDispatchTime := t0
    timeoutId := some 0
    pendingTimers := [(0, t0 + 40)]
    running := []
    dispatched := [(0, t0)]
    added := List.range (j + 1)
    nextTimerId := 1
    now := t0
    maxPendingCount := 1
    completedWhileTimerPending := false }

theorem scen_add1 (t0 : Nat) :
    rlStep (scenStart t0) (.add t0 1) = some (scenQueued t0 1) := by
  rw [rlStep_add (show (scenStart t0).now ≤ t0 from le_refl t0)
    (show 1 ∉ (scenStart t0).added by simp [scenStart, scenRun0])]
  simp only [scenStart, scenRun0]
  rw [rlDispatch_arm rfl (show _ = 1 :: ([] : List Nat) from rfl)
    (show ¬ (40 : Nat) ≤ t0 - t0 by omega)]
  rw [show t0 + (40 - (t0 - t0)) = t0 + 40 from by omega]
  rfl

theorem scen_add_step (t0 j : Nat) :
    rlStep (scenQueued t0 j) (.add t0 (j + 1)) = some (scenQueued t0 (j + 1)) := by
  rw [rlStep_add (show (scenQueued t0 j).now ≤ t0 from le_refl t0)
    (show (j + 1) ∉ (scenQueued t0 j).added by simp [scenQueued, List.mem_range])]
  rw [rlDispatch_guarded (show (Option.some 0).isSome from rfl)]
  rw [show (scenQueued t0 j).queue ++ [j + 1] = List.range' 1 (j + 1) from range'_one_concat j]
  rw [show (scenQueued t0 j).added ++ [j + 1] = List.range ((j + 1) + 1) from
    (List.range_succ (j + 1)).symm]
  rfl

theorem scen_adds (t0 m : Nat) :
    ∀ j : Nat,
      ((List.range' (j + 1) m).map (fun i => RLEvent.add t0 i)).foldlM rlStep (scenQueued t0 j) =
        some (scenQueued t0 (j + m)) := by
  induction m with
  | zero => intro j; rfl
  | succ m ih =>
    intro j
    rw [List.range'_succ, List.map_cons]
    rw [foldlM_rlStep_cons_some (scen_add_step t0 j)]
    have h := ih (j + 1)
    rw [show j + 1 + m = j + (m + 1) from by omega] at h
    exact h

/-- All `N` tasks of the scenario are dispatched at exactly 40ms spacing in
submission order, all settle, and the system is left quiescent. -/
theorem scenario_complete (t0 N : Nat) (h40 : 40 ≤ t0) :
    (runRL 40 (scenarioTrace t0 N)).map
        (fun s => (s.dispatched, s.queue, s.running, s.pendingTimers)) =
      some ((List.range N).map (fun j => (j, t0 + 40 * j)), [], [], []) := by
  cases N with
  | zero => rfl
  | succ m =>
    cases m with
    | zero =>
      have htr : scenarioTrace t0 1 = [RLEvent.add t0 0, RLEvent.taskComplete t0 0] := rfl
      unfold runRL
      rw [htr, scen_start_steps t0 h40]
      rfl
    | succ n =>
      have htr : scenarioTrace t0 (n + 2) =
          ([RLEvent.add t0 0, RLEvent.taskComplete t0 0] ++
            (List.range' 1 (n + 1)).map (fun i => RLEvent.add t0 i)) ++
            (List.range' 0 (n + 1)).flatMap (roundEvts t0) := rfl
      unfold runRL
      rw [htr]
      have hAB : ([RLEvent.add t0 0, RLEvent.taskComplete t0 0] ++
          (List.range' 1 (n + 1)).map (fun i => RLEvent.add t0 i)).foldlM rlStep
            (RLState.init 40) = some (scenQueued t0 (n + 1)) := by
        rw [foldlM_rlStep_append_some (scen_start_steps t0 h40)]
        rw [show (List.range' 1 (n + 1)).map (fun i => RLEvent.add t0 i) =
            RLEvent.add t0 1 :: (List.range' 2 n).map (fun i => RLEvent.add t0 i) from by
          rw [List.range'_succ]; rfl]
        rw [foldlM_rlStep_cons_some (scen_add1 t0)]
        have h := scen_adds t0 n 1
        rw [show (1 : Nat) + n = n + 1 from by omega] at h
        exact h
      rw [foldlM_rlStep_append_some hAB]
      rw [show scenQueued t0 (n + 1) = scenMid t0 (n + 2) 0 from rfl]
      rw [scen_rounds t0 n 0 (n + 2) (by omega)]
      rfl

/-! ## C3 general invariant: spacing and FIFO -/

/-- Run invariant of the rate limiter: the interval is fixed, the clock is
ahead of the last dispatch, the last dispatch record matches
`lastDispatchTime`, consecutive dispatches are at least one interval apart,
and the dispatch order is the submission order (FIFO). -/
def rlRunInv (iv : Nat) (s : RLState) : Prop :=
  s.interval = iv ∧
  s.lastDispatchTime ≤ s.now ∧
  (∀ x ∈ s.dispatched.getLast?, x.2 ≤ s.lastDispatchTime) ∧
  List.Chain' (fun a b : Nat × Nat => a.2 + iv ≤ b.2) s.dispatched ∧
  s.added = s.dispatched.map Prod.fst ++ s.queue

theorem rlDispatch_runInv (iv t : Nat) (s : RLState) (h : rlRunInv iv s) (hnow : s.now = t) :
    rlRunInv iv (rlDispatch t s) := by
  obtain ⟨h1, h2, h3, h4, h5⟩ := h
  by_cases hg : s.timeoutId.isSome
  · rw [rlDispatch_guarded hg]
    exact ⟨h1, h2, h3, h4, h5⟩
  · have ht : s.timeoutId = none := by
      cases hti : s.timeoutId with
      | none => rfl
      | some x => rw [hti] at hg; simp at hg
    cases hq : s.queue with
    | nil =>
      rw [rlDispatch_empty ht hq]
      exact ⟨h1, h2, h3, h4, h5⟩
    | cons task rest =>
      by_cases hi : s.interval ≤ t - s.lastDispatchTime
      · rw [rlDispatch_run ht hq hi]
        refine ⟨h1, le_of_eq hnow.symm, ?_, ?_, ?_⟩
        · intro x hx
          rw [List.getLast?_concat] at hx
          simp only [Option.mem_def, Option.some.injEq] at hx
          rw [← hx]
        · rw [List.chain'_append]
          refine ⟨h4, List.chain'_singleton _, ?_⟩
          intro x hx y hy
          simp only [List.head?_cons, Option.mem_def, Option.some.injEq] at hy
          subst hy
          have hx2 := h3 x hx
          rw [h1] at hi
          simp only
          omega
        · rw [h5, hq, List.map_append]
          simp
      · rw [rlDispatch_arm ht hq hi]
        exact ⟨h1, h2, h3, h4, h5⟩

theorem rlStep_runInv (iv : Nat) (s : RLState) (ev : RLEvent) (s' : RLState)
    (h : rlRunInv iv s) (hstep : rlStep s ev = some s') : rlRunInv iv s' := by
  obtain ⟨h1, h2, h3, h4, h5⟩ := h
  cases ev with
  | add t id =>
    by_cases hc : s.now ≤ t ∧ id ∉ s.added
    · rw [rlStep_add hc.1 hc.2] at hstep
      cases hstep
      refine rlDispatch_runInv iv t _ ⟨h1, le_trans h2 hc.1, h3, h4, ?_⟩ rfl
      show s.added ++ [id] = s.dispatched.map Prod.fst ++ (s.queue ++ [id])
      rw [h5, List.append_assoc]
    · rw [rlStep] at hstep
      rw [if_neg hc] at hstep
      cases hstep
  | taskComplete t id =>
    by_cases hc : s.now ≤ t ∧ id ∈ s.running
    · rw [rlStep_complete hc.1 hc.2] at hstep
      cases hstep
      exact rlDispatch_runInv iv t _ ⟨h1, le_trans h2 hc.1, h3, h4, h5⟩ rfl
    · rw [rlStep] at hstep
      rw [if_neg hc] at hstep
      cases hstep
  | timerFire t tid =>
    cases hfind : s.pendingTimers.find? (fun p => p.1 == tid) with
    | none =>
      rw [rlStep, hfind] at hstep
      cases hstep
    | some pr =>
      by_cases hc : s.now ≤ t ∧ pr.2 ≤ t
      · rw [rlStep_fire hfind hc.1 hc.2] at hstep
        cases hstep
        exact rlDispatch_runInv iv t _ ⟨h1, le_trans h2 hc.1, h3, h4, h5⟩ rfl
      · simp only [rlStep, hfind] at hstep
        rw [if_neg hc] at hstep
        cases hstep

/-- C3: with `rps = 25` (`interval = 40ms`), in every valid execution the
starts of consecutive dispatched tasks are at least 40ms apart and tasks are
dispatched in FIFO submission order; and for every `N`, in the scenario
where `N` negligible-duration tasks are submitted at once, every task is
dispatched (at exactly 40ms spacing, in submission order) and settles,
leaving nothing queued, running, or pending. -/
theorem rateLimiter_spacing_fifo_complete :
    (∀ (events : List RLEvent) (s : RLState),
        runRL 40 events = some s →
        List.Chain' (fun a b : Nat × Nat => a.2 + 40 ≤ b.2) s.dispatched ∧
        s.added = s.dispatched.map Prod.fst ++ s.queue) ∧
    (∀ t0 N : Nat, 40 ≤ t0 →
        (runRL 40 (scenarioTrace t0 N)).map
            (fun s => (s.dispatched, s.queue, s.running, s.pendingTimers)) =
          some ((List.range N).map (fun j => (j, t0 + 40 * j)), [], [], [])) := by
  constructor
  · intro events s hrun
    have hinv := foldlM_rlStep_inv (rlRunInv 40) (rlStep_runInv 40) events
      (RLState.init 40) s hrun
      ⟨rfl, le_refl 0, by simp [RLState.init], List.chain'_nil, rfl⟩
    exact ⟨hinv.2.2.2.1, hinv.2.2.2.2⟩
  · intro t0 N h40
    exact scenario_complete t0 N h40

/-- The final state of the three-task scenario at `t0 = 40`. -/
def c3WitnessState : RLState :=
  { interval := 40
    queue := []
    lastDispatchTime := 120
    timeoutId := none
    pendingTimers := []
    running := []
    dispatched := [(0, 40), (1, 80), (2, 120)]
    added := [0, 1, 2]
    nextTimerId := 2
    now := 120
    maxPendingCount := 1
    completedWhileTimerPending := false }

/-- C3 witness: both halves of the theorem applied to the concrete
three-task scenario submitted at `t0 = 40`. -/
theorem rateLimiter_spacing_fifo_complete_witness :
    (List.Chain' (fun a b : Nat × Nat => a.2 + 40 ≤ b.2) c3WitnessState.dispatched ∧
      c3WitnessState.added = c3WitnessState.dispatched.map Prod.fst ++ c3WitnessState.queue) ∧
    (runRL 40 (scenarioTrace 40 3)).map
        (fun s => (s.dispatched, s.queue, s.running, s.pendingTimers)) =
      some ((List.range 3).map (fun j => (j, 40 + 40 * j)), [], [], []) :=
  ⟨rateLimiter_spacing_fifo_complete.1 (scenarioTrace 40 3) c3WitnessState (by decide),
   rateLimiter_spacing_fifo_complete.2 40 3 (by decide)⟩
